import Mathlib

/-!
Shallow embedding of the job orchestration and retrieval core of
local-link-downloader (file server/app.ts): the filename sanitizer, the
network origin guard, the HTTP retrieval engine (downloadFile) and the
in-memory job registry with its deferred HTTP runner, torrent runner and
cancel handler.  Machine integers of the source are modelled as Nat; the
single floating-point expression (the one-percent progress threshold) is
modelled as an exact rational.  Timestamps are modelled by a logical clock
that advances whenever the source refreshes updatedAt.
-/

namespace LocalLink

/- ── Filename sanitizer (server/app.ts lines 125-131) ─────────────────── -/

/-- One global pass of the JavaScript replacement of the regex of two
consecutive dots by the empty string (line 127): leftmost non-overlapping
occurrences of ".." are removed, scanning left to right. -/
def stripDotDot : List Char → List Char
  | '.' :: '.' :: rest => stripDotDot rest
  | c :: rest => c :: stripDotDot rest
  | List.nil => List.nil

/-- Membership in the character class of letters, digits, dot, underscore
and hyphen used at line 129 of server/app.ts. -/
def isAllowedChar (c : Char) : Bool :=
  c.isAlphanum || c == '.' || c == '_' || c == '-'

/-- server/app.ts lines 125-131: remove ".." pairs, then remove the path
separators slash and backslash, then replace every character outside the
allowed class by an underscore, then truncate to 255 characters.  The
source operates on UTF-16 units; every unit outside the allowed class maps
to an underscore either way, so working per character is equivalent for
the properties stated below. -/
def sanitizeFilename (filename : String) : String :=
  String.mk
    ((((stripDotDot filename.data).filter
        (fun c => !(c == '/' || c == '\\'))).map
      (fun c => if isAllowedChar c then c else '_')).take 255)

/-- Decidable occurrence of two consecutive dots in a character list. -/
def hasDotDot : List Char → Bool
  | '.' :: '.' :: _ => true
  | _ :: rest => hasDotDot rest
  | List.nil => false

/- ── Network origin guard (server/app.ts lines 133-145, 301-317) ──────── -/

/-- Split a character list on every dot, as the capture groups of the
anchored regex of line 135 do. -/
def splitOnDot : List Char → List (List Char)
  | List.nil => [List.nil]
  | '.' :: rest => List.nil :: splitOnDot rest
  | c :: rest =>
    match splitOnDot rest with
    | g :: gs => (c :: g) :: gs
    | List.nil => [[c]]

/-- Decimal value of a digit list, as the JavaScript Number conversion of a
matched group (line 138) computes it. -/
def decValue (l : List Char) : ℕ := l.foldl (fun a c => 10 * a + (c.toNat - 48)) 0

/-- One capture group of the regex at line 135: one to three decimal digits. -/
def groupOk (l : List Char) : Bool :=
  decide (1 ≤ l.length) && decide (l.length ≤ 3) && l.all Char.isDigit

/-- The anchored regex match of lines 135-138: exactly four dot-separated
groups of one to three digits, converted to numbers. -/
def ipv4Match (s : String) : Option (ℕ × ℕ × ℕ × ℕ) :=
  match splitOnDot s.data with
  | [g1, g2, g3, g4] =>
    if groupOk g1 && groupOk g2 && groupOk g3 && groupOk g4 then
      some (decValue g1, decValue g2, decValue g3, decValue g4)
    else none
  | _ => none

/-- server/app.ts lines 133-145. -/
def isInternalIP (hostname : String) : Bool :=
  if hostname = "localhost" then true
  else
    match ipv4Match hostname with
    | none => false
    | some (a, b, _, _) =>
      if a = 10 then true
      else if a = 172 ∧ 16 ≤ b ∧ b ≤ 31 then true
      else if a = 192 ∧ b = 168 then true
      else if a = 127 then true
      else if a = 169 ∧ b = 254 then true
      else false

/-- The private, loopback and link-local ranges named by the specification
(10.0.0.0/8, 172.16.0.0/12, 192.168.0.0/16, 127.0.0.0/8, 169.254.0.0/16),
expressed arithmetically on the first two dotted groups.  Stated from the
specification's words, to be compared with isInternalIP. -/
def inPrivateRanges (a b : ℕ) : Prop :=
  a = 10 ∨ (a = 172 ∧ 16 ≤ b ∧ b ≤ 31) ∨ (a = 192 ∧ b = 168) ∨ a = 127 ∨
    (a = 169 ∧ b = 254)

/- ── Platform URL parser model ────────────────────────────────────────── -/

/-- Split off a scheme terminated by colon-slash-slash, keeping the rest. -/
def splitScheme : List Char → Option (List Char × List Char)
  | List.nil => none
  | ':' :: '/' :: '/' :: rest => some (List.nil, rest)
  | ':' :: _ => none
  | c :: rest =>
    match splitScheme rest with
    | some (sch, r) => some (c :: sch, r)
    | none => none

/-- The host part: everything up to the first slash. -/
def hostSpan : List Char → List Char
  | List.nil => List.nil
  | '/' :: _ => List.nil
  | c :: rest => c :: hostSpan rest

def isHexDigitChar (c : Char) : Bool :=
  c.isDigit || (decide (97 ≤ c.toNat) && decide (c.toNat ≤ 102)) ||
    (decide (65 ≤ c.toNat) && decide (c.toNat ≤ 70))

def hexVal (c : Char) : ℕ :=
  if c.isDigit then c.toNat - 48
  else if decide (97 ≤ c.toNat) && decide (c.toNat ≤ 102) then c.toNat - 87
  else c.toNat - 55

def hexValue (l : List Char) : ℕ := l.foldl (fun a c => 16 * a + hexVal c) 0

def octValue (l : List Char) : ℕ := l.foldl (fun a c => 8 * a + (c.toNat - 48)) 0

def isOctDigitChar (c : Char) : Bool :=
  decide (48 ≤ c.toNat) && decide (c.toNat ≤ 55)

/-- The WHATWG IPv4 number parser of the platform URL library: a part is a
number when it is decimal digits, a 0x or 0X prefix with hexadecimal
digits (possibly none), or a leading 0 with octal digits. -/
def ipv4Num : List Char → Option ℕ
  | '0' :: 'x' :: rest => if rest.all isHexDigitChar then some (hexValue rest) else none
  | '0' :: 'X' :: rest => if rest.all isHexDigitChar then some (hexValue rest) else none
  | '0' :: rest =>
    if rest = List.nil then some 0
    else if rest.all isOctDigitChar then some (octValue rest) else none
  | l => if l ≠ List.nil ∧ l.all Char.isDigit = true then some (decValue l) else none

inductive HostKind where
  | domain
  | addr (a b c d : ℕ)
  | bad
deriving DecidableEq

/-- Combine up to four IPv4 part numbers into a 32-bit value: the last part
supplies the low end, each earlier part is scaled by the next power of 256
from the top, as the WHATWG IPv4 parser specifies. -/
def ipv4Value : List ℕ → Option ℕ
  | [d] => some d
  | [a, d] => some (a * 16777216 + d)
  | [a, b, d] => some (a * 16777216 + b * 65536 + d)
  | [a, b, c, d] => some (a * 16777216 + b * 65536 + c * 256 + d)
  | _ => none

/-- Modelled from the platform (not repository code): the WHATWG host
parser used by the URL constructor at server/app.ts line 303.  A host
whose last dotted part is a number is an IPv4 address and is normalized to
the canonical dotted quad; if any part then fails to be a number or a
bound is exceeded, the whole URL fails to parse.  A host whose last part
is not a number is a domain. -/
def classifyHost (parts : List (List Char)) : HostKind :=
  match parts.getLast? with
  | none => .bad
  | some lastPart =>
    match ipv4Num lastPart with
    | none => .domain
    | some _ =>
      match parts.mapM ipv4Num with
      | none => .bad
      | some ns =>
        match ipv4Value ns with
        | none => .bad
        | some v =>
          if ns.dropLast.all (fun n => decide (n < 256)) &&
             decide (ns.getLast?.getD 0 < 256 ^ (5 - ns.length)) &&
             decide (v < 4294967296) then
            .addr (v / 16777216) (v / 65536 % 256) (v / 256 % 256) (v % 256)
          else .bad

def digitChar (n : ℕ) : Char := Char.ofNat (48 + n)

/-- Decimal digits of a byte value. -/
def byteChars (n : ℕ) : List Char :=
  if n < 10 then [digitChar n]
  else if n < 100 then [digitChar (n / 10), digitChar (n % 10)]
  else [digitChar (n / 100), digitChar (n / 10 % 10), digitChar (n % 10)]

def quadString (a b c d : ℕ) : String :=
  String.mk (byteChars a ++ '.' :: byteChars b ++ '.' :: byteChars c ++ '.' :: byteChars d)

def domainChar (c : Char) : Bool := c.isAlphanum || c == '-' || c == '.'

structure ParsedUrl where
  protocol : String
  hostname : String
deriving DecidableEq

/-- Modelled from the platform (not repository code): the WHATWG URL parser
invoked at server/app.ts line 303, restricted to the URL shapes exercised
by the claims: a letter scheme followed by colon-slash-slash, a host with
no userinfo, port or percent escape, then an optional path.  Bracketed
IPv6 hosts are kept verbatim, brackets included, as the platform hostname
property reports them; IPv4-number hosts are normalized to the canonical
dotted quad; a bare colon in the host fails, as an empty host would. -/
def urlParse (url : String) : Option ParsedUrl :=
  match splitScheme url.data with
  | none => none
  | some (sch, rest) =>
    if sch = List.nil ∨ sch.all Char.isAlpha = false then none
    else
      let protocol := String.mk (sch.map Char.toLower) ++ ":"
      match hostSpan rest with
      | List.nil => none
      | '[' :: inner =>
        if inner.getLast? = some ']' ∧
           (inner.dropLast.all (fun c => isHexDigitChar c || c == ':')) = true ∧
           inner.dropLast ≠ List.nil then
          some ⟨protocol, String.mk ('[' :: inner)⟩
        else none
      | c :: hostRest =>
        let host := c :: hostRest
        if host.any (fun ch => ch == ':' || ch == '@') then none
        else
          match classifyHost (splitOnDot host) with
          | .bad => none
          | .addr a b c d => some ⟨protocol, quadString a b c d⟩
          | .domain =>
            if host.all domainChar then
              some ⟨protocol, String.mk (host.map Char.toLower)⟩
            else none

/-- The origin checks of POST /api/download, server/app.ts lines 309-317,
applied to a parsed URL: only the http and https protocols are allowed and
the hostname must not be an internal address. -/
def originCheck (p : ParsedUrl) : Bool :=
  if p.protocol ≠ "http:" ∧ p.protocol ≠ "https:" then false
  else if isInternalIP p.hostname then false
  else true

/-- The whole origin gate of POST /api/download, lines 301-317: a URL that
fails to parse is rejected, otherwise the parsed protocol and hostname are
checked. -/
def checkOrigin (url : String) : Bool :=
  match urlParse url with
  | none => false
  | some p => originCheck p

/- ── HTTP retrieval engine (server/app.ts lines 147-203) ─────────────── -/

/-- 512 KiB, the THROTTLE_BYTES constant of line 166. -/
def THROTTLE_BYTES : ℕ := 512 * 1024

/-- The progress threshold of line 178: the larger of one percent of the
total and THROTTLE_BYTES when the total is known, THROTTLE_BYTES when it
is unknown.  The source computes one percent as the floating product with
0.01; it is modelled as the exact rational, which agrees with the double
comparison for every realistic total. -/
def threshold (total : Option ℕ) : ℚ :=
  match total with
  | some t => max ((t : ℚ) / 100) ((THROTTLE_BYTES : ℚ))
  | none => (THROTTLE_BYTES : ℚ)

/-- The emission test of line 179: bytes downloaded minus bytes last
reported reach the threshold. -/
def shouldEmit (total : Option ℕ) (downloaded lastReported : ℕ) : Bool :=
  decide (threshold total ≤ (downloaded : ℚ) - (lastReported : ℚ))

/-- The loop state of downloadFile: the running byte count, the count at
the last emitted report, the buffered chunks, and the reports emitted so
far (each carrying the downloaded count and the known total). -/
structure DLState where
  downloaded : ℕ
  lastReported : ℕ
  buffer : List ℕ
  reports : List (ℕ × Option ℕ)
deriving DecidableEq

/-- Lines 175-182: buffer the chunk, add its length, and emit a progress
report when the accumulation since the last report reaches the threshold. -/
def stepChunk (total : Option ℕ) (st : DLState) (n : ℕ) : DLState :=
  let d := st.downloaded + n
  if shouldEmit total d st.lastReported then
    ⟨d, d, st.buffer ++ [n], st.reports ++ [(d, total)]⟩
  else
    ⟨d, st.lastReported, st.buffer ++ [n], st.reports⟩

/-- Outcome of downloadFile (the object of line 152): success carrying the
byte total, cancellation, or failure carrying a message. -/
inductive DlOutcome where
  | success (totalBytes : ℕ)
  | cancelled
  | failure (msg : String)
deriving DecidableEq

/-- A suspension of the body-reading loop as the engine sees it: a chunk
arriving with the abort signal unobserved at the preceding poll, the poll
of line 169 observing the abort, or the read rejecting with an exception
whose catch (lines 194-201) sees the given signal state.  An exhausted
list is the stream ending (the read resolving done at line 174). -/
inductive StreamEv where
  | chunk (n : ℕ)
  | abortObserved
  | raise (abortedSeen : Bool) (msg : String)
deriving DecidableEq

/-- The while loop of lines 168-183 together with the final report of line
184: chunks are accumulated until the stream ends (success), the abort
poll fires (cancelled, line 169-172), or an exception surfaces (cancelled
when the signal was aborted, otherwise failure; lines 194-201). -/
def downloadLoop (total : Option ℕ) (st : DLState) : List StreamEv → DlOutcome × DLState
  | List.nil =>
    (.success st.downloaded, { st with reports := st.reports ++ [(st.downloaded, total)] })
  | .chunk n :: rest => downloadLoop total (stepChunk total st n) rest
  | .abortObserved :: _ => (.cancelled, st)
  | .raise ab m :: _ => ((if ab then .cancelled else .failure m), st)

/-- server/app.ts lines 147-203, for a response with a streaming body.
When the response is not ok the HTTP error is returned before any read
(lines 155-157).  The buffered payload is written to the destination path
only on the success exit (lines 185-187); on every other exit the file
state is left untouched.  The file at the destination is modelled as an
optional list of written chunks. -/
def finishFile (out : DlOutcome) (buffer : List ℕ) (fs : Option (List ℕ)) :
    Option (List ℕ) :=
  match out with
  | .success _ => some buffer
  | _ => fs

def downloadFile (ok : Bool) (errMsg : String) (total : Option ℕ)
    (events : List StreamEv) (fs : Option (List ℕ)) :
    DlOutcome × Option (List ℕ) × List (ℕ × Option ℕ) :=
  if ok = false then (.failure errMsg, fs, List.nil)
  else
    let r := downloadLoop total ⟨0, 0, List.nil, List.nil⟩ events
    (r.1, finishFile r.1 r.2.buffer fs, r.2.reports)

/-- Whether the engine observes the cancellation during the transfer: the
first suspension that is not a plain chunk is either the abort poll firing
or an exception caught with the signal already aborted. -/
def observesAbort : List StreamEv → Bool
  | List.nil => false
  | .chunk _ :: rest => observesAbort rest
  | .abortObserved :: _ => true
  | .raise ab _ :: _ => ab

/-- The runner's treatment of the file after the engine returns, lines
407-411: the cancelled branch unlinks the destination path
unconditionally; the other branches leave the file state as the engine
left it. -/
def runnerFileEffect (out : DlOutcome) (fs : Option (List ℕ)) : Option (List ℕ) :=
  match out with
  | .cancelled => none
  | _ => fs

/-- One whole HTTP retrieval as the deferred runner executes it, projected
to the outcome and the file at the destination path. -/
def httpRun (ok : Bool) (errMsg : String) (total : Option ℕ)
    (events : List StreamEv) (fs : Option (List ℕ)) :
    DlOutcome × Option (List ℕ) :=
  let r := downloadFile ok errMsg total events fs
  (r.1, runnerFileEffect r.1 r.2.1)

/- ── Job registry and its concurrent mutators (server/app.ts) ─────────── -/

inductive Status where
  | queued
  | downloading
  | done
  | error
  | cancelled
deriving DecidableEq, Fintype

def Status.isTerminal : Status → Bool
  | .done => true
  | .error => true
  | .cancelled => true
  | _ => false

inductive JobKind where
  | http
  | torrent
  | upload
deriving DecidableEq, Fintype

/-- The job record of server/app.ts lines 22-41, restricted to the fields
some modelled operation writes; the identity fields (id, url, folderKey,
createdAt) are immutable after creation and are omitted.  The
abortController field records the presence of the cancellation handle, the
signalAborted field the state of its signal; torrentRef records whether
the live torrent handle is attached. -/
structure Job where
  status : Status
  message : Option String
  totalBytes : Option ℕ
  downloadedBytes : Option ℕ
  updatedAt : ℕ
  abortController : Bool
  signalAborted : Bool
  kind : JobKind
  torrentRef : Bool
  peers : Option ℕ
  downloadSpeed : Option ℕ
  filename : String
  destPath : String
deriving DecidableEq

/-- Control point of the deferred HTTP runner of lines 388-426: not yet
started, between its first and last synchronous block, or finished. -/
inductive HttpPc where
  | idle
  | running
  | finished
deriving DecidableEq, Fintype

structure SysState where
  job : Job
  pc : HttpPc
  torrentStarted : Bool
  clock : ℕ
deriving DecidableEq

/-- The atomic synchronous blocks that mutate one job, each a run of code
between two awaits of the source: the HTTP runner start (lines 389-393),
one per-chunk progress callback (395-402), the HTTP runner finalization
(404-425), the cancel handler (691-713), the torrent runner start
(586-617, with ok false for a client initialization failure), the torrent
metadata callback (608-615), one 500 ms sampler tick (619-628), and the
torrent done and error handlers (631-660). -/
inductive Step where
  | runnerStart
  | progress (downloaded : ℕ) (total : Option ℕ)
  | runnerFinish (r : DlOutcome)
  | cancel
  | torrentStart (ok : Bool)
  | torrentMeta (name : String) (len : ℕ)
  | torrentTick (downloaded len : ℕ) (name : String) (numPeers speed : ℕ)
  | torrentDone (len : ℕ) (name : String)
  | torrentError (msg : String)
deriving DecidableEq

/-- Scheduling constraints: a step can only run when its originating code
can be on the event loop at all.  The HTTP runner steps require an HTTP
job and the runner's control point; the torrent callbacks require the live
torrent handle; the sampler requires the started runner; the cancel route
can always be invoked. -/
def enabled (st : Step) (s : SysState) : Bool :=
  match st with
  | .runnerStart => decide (s.job.kind = .http) && decide (s.pc = .idle)
  | .progress _ _ => decide (s.job.kind = .http) && decide (s.pc = .running)
  | .runnerFinish _ => decide (s.job.kind = .http) && decide (s.pc = .running)
  | .cancel => true
  | .torrentStart _ => decide (s.job.kind = .torrent) && !s.torrentStarted
  | .torrentMeta _ _ => decide (s.job.kind = .torrent) && s.job.torrentRef
  | .torrentTick _ _ _ _ _ => decide (s.job.kind = .torrent) && s.torrentStarted
  | .torrentDone _ _ => decide (s.job.kind = .torrent) && s.job.torrentRef
  | .torrentError _ => decide (s.job.kind = .torrent) && s.job.torrentRef

/-- The state mutation of each atomic block, translated line by line from
server/app.ts.  The logical clock advances whenever the source writes a
fresh timestamp. -/
def stepFn (st : Step) (s : SysState) : SysState :=
  let t := s.clock + 1
  match st with
  | .runnerStart =>
    { s with
      pc := .running, clock := t,
      job := { s.job with
               status := .downloading, downloadedBytes := some 0,
               updatedAt := t } }
  | .progress d total =>
    { s with
      clock := t,
      job := { s.job with
               downloadedBytes := some d,
               totalBytes := (match total with | some v => some v | none => s.job.totalBytes),
               updatedAt := t } }
  | .runnerFinish r =>
    let j1 := { s.job with
                updatedAt := t, abortController := false }
    let j2 :=
      match r with
      | .cancelled => { j1 with status := .cancelled, message := some "Download cancelled" }
      | .success tb => { j1 with
                         status := .done, downloadedBytes := some tb,
                         totalBytes := some tb,
                         message := some ("Downloaded to " ++ s.job.destPath) }
      | .failure m => { j1 with status := .error, message := some m }
    { s with pc := .finished, clock := t, job := j2 }
  | .cancel =>
    if s.job.status = .queued ∨ s.job.status = .downloading then
      { s with
        clock := t,
        job := { s.job with
                 status := .cancelled, message := some "Download cancelled",
                 updatedAt := t,
                 signalAborted := s.job.signalAborted || s.job.abortController,
                 torrentRef :=
                   if s.job.kind = .torrent ∧ s.job.torrentRef = true then false
                   else s.job.torrentRef } }
    else s
  | .torrentStart ok =>
    if s.job.status = .cancelled then { s with torrentStarted := true }
    else if ok then
      { s with
        torrentStarted := true, clock := t,
        job := { s.job with
                 status := .downloading, downloadedBytes := some 0,
                 updatedAt := t, torrentRef := true } }
    else
      { s with
        torrentStarted := true, clock := t,
        job := { s.job with
                 status := .error, downloadedBytes := some 0,
                 message := some "Failed to initialize torrent client",
                 updatedAt := t } }
  | .torrentMeta name len =>
    { s with
      clock := t,
      job := { s.job with
               filename := name,
               totalBytes := (if len = 0 then none else some len),
               updatedAt := t } }
  | .torrentTick d len name numPeers speed =>
    if s.job.status ≠ .downloading then s
    else
      { s with
        clock := t,
        job := { s.job with
                 downloadedBytes := some d,
                 totalBytes := (if len = 0 then s.job.totalBytes else some len),
                 filename := (if name ≠ "" ∧ s.job.filename = "" then name else s.job.filename),
                 peers := some numPeers, downloadSpeed := some speed,
                 updatedAt := t } }
  | .torrentDone len name =>
    { s with
      clock := t,
      job := { s.job with
               status := .done, downloadedBytes := some len,
               totalBytes := some len, filename := name, peers := none,
               downloadSpeed := none,
               message := some ("Downloaded to " ++ s.job.destPath),
               torrentRef := false, updatedAt := t } }
  | .torrentError m =>
    { s with
      clock := t,
      job := { s.job with
               status := .error, message := some m,
               torrentRef := false, updatedAt := t } }

/-- A step runs only when enabled; a disabled step changes nothing. -/
def applyStep (st : Step) (s : SysState) : SysState :=
  if enabled st s then stepFn st s else s

def runSteps (s : SysState) (l : List Step) : SysState :=
  l.foldl (fun s st => applyStep st s) s

/-- The HTTP job record created at lines 373-383: queued, with a fresh
abort controller attached. -/
def initHttpJob : SysState :=
  { job := { status := .queued, message := none, totalBytes := none,
             downloadedBytes := none, updatedAt := 0, abortController := true,
             signalAborted := false, kind := .http, torrentRef := false,
             peers := none, downloadSpeed := none, filename := "download",
             destPath := "folder/download" },
    pc := .idle, torrentStarted := false, clock := 0 }

/-- The torrent job record created at lines 571-581: queued, with no abort
controller and an empty filename. -/
def initTorrentJob : SysState :=
  { job := { status := .queued, message := none, totalBytes := none,
             downloadedBytes := none, updatedAt := 0, abortController := false,
             signalAborted := false, kind := .torrent, torrentRef := false,
             peers := none, downloadSpeed := none, filename := "",
             destPath := "folder" },
    pc := .idle, torrentStarted := false, clock := 0 }

inductive CancelOutcome where
  | ok
  | notFound
  | conflict (st : Status)
deriving DecidableEq

/-- The DELETE /api/jobs/:jobId handler of lines 691-713: not found for an
absent id; a conflict, with the registry untouched, for a job that is not
queued or downloading; otherwise the cancelling mutation. -/
def deleteHandler : Option SysState → CancelOutcome × Option SysState
  | none => (.notFound, none)
  | some s =>
    if s.job.status = .queued ∨ s.job.status = .downloading then
      (.ok, some (stepFn .cancel s))
    else (.conflict s.job.status, some s)

/-- The legal transition graph of the specification: queued to downloading,
queued to error (engine failure before start), queued or downloading to
cancelled, downloading to done or error. -/
def legalEdge : Status → Status → Bool
  | .queued, .downloading => true
  | .queued, .error => true
  | .queued, .cancelled => true
  | .downloading, .done => true
  | .downloading, .error => true
  | .downloading, .cancelled => true
  | _, _ => false

/-- A status move is acceptable when it stands still or follows an edge. -/
def statusOk (a b : Status) : Prop := a = b ∨ legalEdge a b = true

instance (a b : Status) : Decidable (statusOk a b) := by
  unfold statusOk; infer_instance

/-- The finite projection of a system state: exactly the fields every
scheduling guard and every status mutation depends on.  Invariants over
reachable states are decided by exhausting this finite type. -/
structure Core where
  status : Status
  abortController : Bool
  kind : JobKind
  torrentRef : Bool
  pc : HttpPc
  torrentStarted : Bool
deriving DecidableEq, Fintype

def coreOf (s : SysState) : Core :=
  ⟨s.job.status, s.job.abortController, s.job.kind, s.job.torrentRef,
    s.pc, s.torrentStarted⟩

/-- The steps with their data arguments erased; the guards and the status
effects depend only on this finite shape. -/
inductive AbsStep where
  | runnerStart
  | progress
  | runnerFinishCancelled
  | runnerFinishSuccess
  | runnerFinishFailure
  | cancel
  | torrentStartOk
  | torrentStartFail
  | torrentMeta
  | torrentTick
  | torrentDone
  | torrentError
deriving DecidableEq, Fintype

def absStep : Step → AbsStep
  | .runnerStart => .runnerStart
  | .progress _ _ => .progress
  | .runnerFinish .cancelled => .runnerFinishCancelled
  | .runnerFinish (.success _) => .runnerFinishSuccess
  | .runnerFinish (.failure _) => .runnerFinishFailure
  | .cancel => .cancel
  | .torrentStart true => .torrentStartOk
  | .torrentStart false => .torrentStartFail
  | .torrentMeta _ _ => .torrentMeta
  | .torrentTick _ _ _ _ _ => .torrentTick
  | .torrentDone _ _ => .torrentDone
  | .torrentError _ => .torrentError

/-- The guard of enabled, projected to the core. -/
def coreEnabled (a : AbsStep) (c : Core) : Bool :=
  match a with
  | .runnerStart => decide (c.kind = .http) && decide (c.pc = .idle)
  | .progress => decide (c.kind = .http) && decide (c.pc = .running)
  | .runnerFinishCancelled => decide (c.kind = .http) && decide (c.pc = .running)
  | .runnerFinishSuccess => decide (c.kind = .http) && decide (c.pc = .running)
  | .runnerFinishFailure => decide (c.kind = .http) && decide (c.pc = .running)
  | .cancel => true
  | .torrentStartOk => decide (c.kind = .torrent) && !c.torrentStarted
  | .torrentStartFail => decide (c.kind = .torrent) && !c.torrentStarted
  | .torrentMeta => decide (c.kind = .torrent) && c.torrentRef
  | .torrentTick => decide (c.kind = .torrent) && c.torrentStarted
  | .torrentDone => decide (c.kind = .torrent) && c.torrentRef
  | .torrentError => decide (c.kind = .torrent) && c.torrentRef

/-- The effect of stepFn, projected to the core. -/
def coreStep (a : AbsStep) (c : Core) : Core :=
  match a with
  | .runnerStart => { c with status := .downloading, pc := .running }
  | .progress => c
  | .runnerFinishCancelled =>
    { c with status := .cancelled, abortController := false, pc := .finished }
  | .runnerFinishSuccess =>
    { c with status := .done, abortController := false, pc := .finished }
  | .runnerFinishFailure =>
    { c with status := .error, abortController := false, pc := .finished }
  | .cancel =>
    if c.status = .queued ∨ c.status = .downloading then
      { c with
        status := .cancelled,
        torrentRef := if c.kind = .torrent ∧ c.torrentRef = true then false
                      else c.torrentRef }
    else c
  | .torrentStartOk =>
    if c.status = .cancelled then { c with torrentStarted := true }
    else { c with torrentStarted := true, status := .downloading, torrentRef := true }
  | .torrentStartFail =>
    if c.status = .cancelled then { c with torrentStarted := true }
    else { c with torrentStarted := true, status := .error }
  | .torrentMeta => c
  | .torrentTick => c
  | .torrentDone => { c with status := .done, torrentRef := false }
  | .torrentError => { c with status := .error, torrentRef := false }

def coreApply (a : AbsStep) (c : Core) : Core :=
  if coreEnabled a c then coreStep a c else c

def coreRun (c : Core) (as' : List AbsStep) : Core :=
  as'.foldl (fun c a => coreApply a c) c

/-- Invariant of every core reachable from a freshly created torrent job:
the kind never changes, the HTTP runner never exists for it, no abort
controller is ever attached, the live torrent handle implies the
downloading status, and before the torrent runner starts the job is still
queued unless already cancelled. -/
def CoreTorrentInv (c : Core) : Bool :=
  decide (c.kind = .torrent) && decide (c.pc = .idle) && !c.abortController &&
  (!c.torrentRef || decide (c.status = .downloading)) &&
  (c.torrentStarted ||
    ((decide (c.status = .queued) || decide (c.status = .cancelled)) && !c.torrentRef))

/-- Invariant of every core reachable from a freshly created HTTP job: the
kind never changes, no torrent machinery exists, the abort controller
stays attached exactly until the runner finalizes, a finished runner has
left a terminal status behind, and the runner's control point bounds what
the status can be. -/
def CoreHttpInv (c : Core) : Bool :=
  decide (c.kind = .http) && !c.torrentStarted && !c.torrentRef &&
  (c.abortController == decide (c.pc ≠ .finished)) &&
  (!(decide (c.pc = .finished)) || c.status.isTerminal) &&
  (!(decide (c.pc = .idle)) ||
    (decide (c.status = .queued) || decide (c.status = .cancelled))) &&
  (!(decide (c.pc = .running)) ||
    (decide (c.status = .downloading) || decide (c.status = .cancelled)))

/- ════════════════════════ Theorems ════════════════════════ -/

/- ── Helper lemmas about the sanitizer ────────────────────────────────── -/

theorem sanitize_chars_allowed (s : String) :
    ∀ c ∈ (sanitizeFilename s).data, isAllowedChar c = true := by
  intro c hc
  have hc' := List.take_subset 255 _ hc
  obtain ⟨x, _, hx⟩ := List.mem_map.mp hc'
  cases hb : isAllowedChar x with
  | true => rw [← hx, if_pos hb]; exact hb
  | false => rw [← hx, if_neg (by simp [hb])]; decide

/- ── Helper lemmas about the origin guard ─────────────────────────────── -/

theorem isInternalIP_iff (h : String) :
    isInternalIP h = true ↔
      h = "localhost" ∨
        ∃ a b c d, ipv4Match h = some (a, b, c, d) ∧ inPrivateRanges a b := by
  by_cases hl : h = "localhost"
  · simp [isInternalIP, hl]
  · rw [isInternalIP, if_neg hl]
    cases e : ipv4Match h with
    | none => simp [hl, e]
    | some q =>
      obtain ⟨a, b, c, d⟩ := q
      simp only [e, hl, false_or, Option.some.injEq, Prod.mk.injEq]
      constructor
      · intro ht
        refine ⟨a, b, c, d, ⟨rfl, rfl, rfl, rfl⟩, ?_⟩
        unfold inPrivateRanges
        split_ifs at ht <;> tauto
      · rintro ⟨a', b', c', d', ⟨ha, hb, hc, hd⟩, hr⟩
        subst ha; subst hb; subst hc; subst hd
        unfold inPrivateRanges at hr
        split_ifs <;> first | rfl | tauto

/-- C3 counterexample: the claim that sanitizeFilename never returns a
string containing two consecutive dots is false.  The ".." stripping runs
before the separator removal, so the input of a dot, a slash and a dot
keeps both dots, loses the slash, and comes out as exactly "..". -/
theorem c3_counterexample :
    sanitizeFilename "./." = ".." ∧
      hasDotDot (sanitizeFilename "./.").data = true := by
  constructor <;> decide

/-- C3 as amended: for every input the result contains only characters
from the allowed class (hence no slash and no backslash) and is at most
255 characters long; the specific traversal probe of the claim comes out
free of consecutive dots and of separators (it is exactly "etcpasswd").
The universal absence of ".." does not survive: the separator removal can
fuse dots (see the counterexample). -/
theorem c3_theorem :
    (∀ s : String,
      (∀ c ∈ (sanitizeFilename s).data, isAllowedChar c = true) ∧
      '/' ∉ (sanitizeFilename s).data ∧
      '\\' ∉ (sanitizeFilename s).data ∧
      (sanitizeFilename s).length ≤ 255) ∧
    hasDotDot (sanitizeFilename "../../etc/passwd").data = false ∧
    sanitizeFilename "../../etc/passwd" = "etcpasswd" := by
  refine ⟨fun s => ⟨sanitize_chars_allowed s, ?_, ?_, ?_⟩, by decide, by decide⟩
  · intro hmem
    have := sanitize_chars_allowed s '/' hmem
    exact absurd this (by decide)
  · intro hmem
    have := sanitize_chars_allowed s '\\' hmem
    exact absurd this (by decide)
  · show (sanitizeFilename s).data.length ≤ 255
    simp only [sanitizeFilename]
    exact le_trans (List.length_take_le 255 _) (le_refl 255)

theorem c3_witness : isAllowedChar '_' = true :=
  (c3_theorem.1 "a*b").1 '_' (by decide)

theorem originCheck_true_iff (p : ParsedUrl) :
    originCheck p = true ↔
      (p.protocol = "http:" ∨ p.protocol = "https:") ∧
      p.hostname ≠ "localhost" ∧
      ¬ ∃ a b c d, ipv4Match p.hostname = some (a, b, c, d) ∧ inPrivateRanges a b := by
  unfold originCheck
  constructor
  · intro ht
    split_ifs at ht with h1 h2
    · push_neg at h1
      have h2' : ¬ (p.hostname = "localhost" ∨
          ∃ a b c d, ipv4Match p.hostname = some (a, b, c, d) ∧ inPrivateRanges a b) :=
        fun hcase => h2 ((isInternalIP_iff p.hostname).mpr hcase)
      obtain ⟨hloc2, hip2⟩ := not_or.mp h2'
      rcases Decidable.em (p.protocol = "http:") with hh | hh
      · exact ⟨Or.inl hh, hloc2, hip2⟩
      · exact ⟨Or.inr (h1 hh), hloc2, hip2⟩
  · rintro ⟨hproto, hloc, hip⟩
    have hint : ¬ (isInternalIP p.hostname = true) := by
      intro htc
      rcases (isInternalIP_iff p.hostname).mp htc with hcase | hcase
      · exact hloc hcase
      · exact hip hcase
    rw [if_neg, if_neg hint]
    rintro ⟨hh1, hh2⟩
    rcases hproto with hh | hh
    · exact hh1 hh
    · exact hh2 hh

/-- C4: the origin gate accepts exactly the URLs that parse, carry the
http or https protocol, and whose hostname is neither "localhost" nor a
dotted-quad literal inside the private, loopback or link-local ranges;
and it decides the four concrete URLs of the claim as stated. -/
theorem c4_theorem :
    (∀ url : String,
      checkOrigin url = true ↔
        ∃ p, urlParse url = some p ∧
          (p.protocol = "http:" ∨ p.protocol = "https:") ∧
          p.hostname ≠ "localhost" ∧
          ¬ ∃ a b c d, ipv4Match p.hostname = some (a, b, c, d) ∧ inPrivateRanges a b) ∧
    checkOrigin "http://192.168.1.1/x" = false ∧
    checkOrigin "http://127.0.0.1/x" = false ∧
    checkOrigin "ftp://host/x" = false ∧
    checkOrigin "https://example.com/x" = true := by
  refine ⟨fun url => ?_, by decide, by decide, by decide, by decide⟩
  unfold checkOrigin
  cases e : urlParse url with
  | none => simp
  | some p => simp [originCheck_true_iff p]

/-- C9 counterexample: the claim infers that URLs whose host is an
abbreviated or hexadecimal IPv4 spelling pass the origin check.  The
platform URL parser normalizes such hosts to the canonical dotted quad
before the check, so the two URLs below are in fact rejected. -/
theorem c9_counterexample :
    isInternalIP "127.1" = false ∧
    isInternalIP "0x7f.0.0.1" = false ∧
    urlParse "http://127.1/x" = some ⟨"http:", "127.0.0.1"⟩ ∧
    checkOrigin "http://127.1/x" = false ∧
    checkOrigin "http://0x7f.0.0.1/x" = false := by
  refine ⟨by decide, by decide, by decide, by decide, by decide⟩

/-- C9 as amended: isInternalIP returns true only for the exact string
"localhost" or four dot-separated one-to-three digit groups inside the
listed ranges; the IPv6 spellings and the abbreviated or hexadecimal IPv4
spellings all return false.  Consequently a URL with host [::1] passes
the whole origin check, while the abbreviated IPv4 spellings are
normalized to dotted quads by the URL parser and rejected, and an
unbracketed ::1 host does not parse at all. -/
theorem c9_theorem :
    (∀ h : String,
      isInternalIP h = true ↔
        h = "localhost" ∨
          ∃ a b c d, ipv4Match h = some (a, b, c, d) ∧ inPrivateRanges a b) ∧
    isInternalIP "[::1]" = false ∧
    isInternalIP "::1" = false ∧
    isInternalIP "127.1" = false ∧
    isInternalIP "0x7f.0.0.1" = false ∧
    checkOrigin "http://[::1]/x" = true ∧
    urlParse "http://::1/x" = none ∧
    checkOrigin "http://127.1/x" = false ∧
    checkOrigin "http://0x7f.0.0.1/x" = false := by
  exact ⟨fun h => isInternalIP_iff h, by decide, by decide, by decide, by decide,
    by decide, by decide, by decide, by decide⟩

/- ── Helper lemmas about the HTTP engine ──────────────────────────────── -/

theorem shouldEmit_none (d lr : ℕ) :
    shouldEmit none d lr = decide (THROTTLE_BYTES ≤ d - lr) := by
  have hth : threshold none = ((THROTTLE_BYTES : ℕ) : ℚ) := rfl
  rw [shouldEmit, hth, decide_eq_decide]
  by_cases h : lr ≤ d
  · rw [← Nat.cast_sub h, Nat.cast_le]
  · have hlt : d < lr := not_le.mp h
    have h0 : d - lr = 0 := Nat.sub_eq_zero_of_le hlt.le
    rw [h0]
    constructor
    · intro hq
      exfalso
      have hdl : (d : ℚ) < (lr : ℚ) := by exact_mod_cast hlt
      have hpos : (0 : ℚ) < ((THROTTLE_BYTES : ℕ) : ℚ) := by
        norm_num [THROTTLE_BYTES]
      linarith
    · intro hn
      exact absurd hn (by decide)

theorem shouldEmit_some (t d lr : ℕ) :
    shouldEmit (some t) d lr =
      (decide (THROTTLE_BYTES ≤ d - lr) && decide (t ≤ 100 * (d - lr))) := by
  rw [← Bool.decide_and]
  have hth : threshold (some t) = max ((t : ℚ) / 100) ((THROTTLE_BYTES : ℕ) : ℚ) := rfl
  rw [shouldEmit, hth, decide_eq_decide, max_le_iff]
  by_cases h : lr ≤ d
  · rw [← Nat.cast_sub h]
    have h1 : ((t : ℚ) / 100 ≤ ((d - lr : ℕ) : ℚ)) ↔ t ≤ 100 * (d - lr) := by
      rw [div_le_iff₀ (by norm_num : (0 : ℚ) < 100), mul_comm]
      exact_mod_cast Iff.rfl
    have h2 : (((THROTTLE_BYTES : ℕ) : ℚ) ≤ ((d - lr : ℕ) : ℚ)) ↔
        THROTTLE_BYTES ≤ d - lr := Nat.cast_le
    rw [h1, h2]
    exact and_comm
  · have hlt : d < lr := not_le.mp h
    have h0 : d - lr = 0 := Nat.sub_eq_zero_of_le hlt.le
    rw [h0]
    constructor
    · rintro ⟨-, hTB⟩
      exfalso
      have hdl : (d : ℚ) < (lr : ℚ) := by exact_mod_cast hlt
      have hpos : (0 : ℚ) < ((THROTTLE_BYTES : ℕ) : ℚ) := by
        norm_num [THROTTLE_BYTES]
      linarith
    · rintro ⟨hTB, -⟩
      exact absurd hTB (by decide)

theorem downloadLoop_cancelled (total : Option ℕ) :
    ∀ (events : List StreamEv) (st : DLState), observesAbort events = true →
      (downloadLoop total st events).1 = .cancelled := by
  intro events
  induction events with
  | nil => intro st h; exact absurd h (by decide)
  | cons e rest ih =>
    intro st h
    cases e with
    | chunk n => exact ih _ (by simpa [observesAbort] using h)
    | abortObserved => rfl
    | raise ab m =>
      have hab : ab = true := by simpa [observesAbort] using h
      simp [downloadLoop, hab]

/-- C5: whenever the HTTP engine observes the cancellation signal during
the transfer — at the poll between chunks or in the catch around a
rejected read — the reported outcome is Cancelled (never Error) and, after
the runner's cancelled branch unlinks the destination, no file exists at
the destination path: the buffered chunks were never written. -/
theorem c5_theorem (errMsg : String) (total : Option ℕ) (events : List StreamEv)
    (fs : Option (List ℕ)) (h : observesAbort events = true) :
    (httpRun true errMsg total events fs).1 = .cancelled ∧
    (httpRun true errMsg total events fs).2 = none := by
  have hc := downloadLoop_cancelled total events ⟨0, 0, List.nil, List.nil⟩ h
  constructor
  · simp [httpRun, downloadFile, hc]
  · simp [httpRun, downloadFile, hc, finishFile, runnerFileEffect]

theorem c5_witness :
    observesAbort [StreamEv.chunk 5, StreamEv.abortObserved] = true ∧
    (httpRun true "boom" none [StreamEv.chunk 5, StreamEv.abortObserved]
        (some [7])).1 = .cancelled ∧
    (httpRun true "boom" none [StreamEv.chunk 5, StreamEv.abortObserved]
        (some [7])).2 = none :=
  ⟨by decide, c5_theorem "boom" none [StreamEv.chunk 5, StreamEv.abortObserved]
    (some [7]) (by decide)⟩

/-- C6 counterexample: the claim says a progress update is emitted on
every chunk when the total size is unknown.  With the total unknown the
source still applies the 512 KiB throttle (line 178), so the first
one-byte chunk is processed with no report emitted. -/
theorem c6_counterexample :
    (stepChunk none ⟨0, 0, List.nil, List.nil⟩ 1).downloaded = 1 ∧
    (stepChunk none ⟨0, 0, List.nil, List.nil⟩ 1).reports = List.nil := by
  have h : shouldEmit none 1 0 = false := by rw [shouldEmit_none]; decide
  constructor
  · simp only [stepChunk]; split <;> rfl
  · simp [stepChunk, h]

/-- C6 as amended: on each chunk, a progress update is emitted exactly
when the bytes accumulated since the last report reach 512 KiB — and
additionally, when the total size is known, one percent of that total
(together the maximum of the two thresholds).  With the total unknown the
512 KiB throttle alone applies, not an update on every chunk. -/
theorem c6_theorem :
    (∀ (st : DLState) (n : ℕ),
      ((stepChunk none st n).reports.length = st.reports.length + 1 ↔
        THROTTLE_BYTES ≤ st.downloaded + n - st.lastReported)) ∧
    (∀ (t : ℕ) (st : DLState) (n : ℕ),
      ((stepChunk (some t) st n).reports.length = st.reports.length + 1 ↔
        (THROTTLE_BYTES ≤ st.downloaded + n - st.lastReported ∧
          t ≤ 100 * (st.downloaded + n - st.lastReported)))) ∧
    (∀ (total : Option ℕ) (st : DLState) (n : ℕ),
      (stepChunk total st n).downloaded = st.downloaded + n ∧
      ((stepChunk total st n).reports = st.reports ∨
        (stepChunk total st n).reports =
          st.reports ++ [(st.downloaded + n, total)])) := by
  refine ⟨fun st n => ?_, fun t st n => ?_, fun total st n => ⟨?_, ?_⟩⟩
  · simp only [stepChunk, shouldEmit_none]
    by_cases hc : THROTTLE_BYTES ≤ st.downloaded + n - st.lastReported
    · simp [hc]
    · simp [hc]
  · simp only [stepChunk, shouldEmit_some]
    by_cases hc1 : THROTTLE_BYTES ≤ st.downloaded + n - st.lastReported
    · by_cases hc2 : t ≤ 100 * (st.downloaded + n - st.lastReported)
      · simp [hc1, hc2]
      · simp [hc1, hc2]
    · simp [hc1]
  · simp only [stepChunk]; split <;> rfl
  · simp only [stepChunk]; split
    · exact Or.inr rfl
    · exact Or.inl rfl

theorem c6_witness :
    (stepChunk none ⟨524288, 0, List.nil, List.nil⟩ 0).reports.length = 1 := by
  have h := (c6_theorem.1 ⟨524288, 0, List.nil, List.nil⟩ 0).mpr (by decide)
  simpa using h

/-- C10: the engine buffers the payload in memory and touches the file at
the destination path only on the success exit, yet the runner's cancelled
branch unlinks that path unconditionally — so a file that already existed
there before the job started is deleted by the cancellation. -/
theorem c10_theorem :
    (∀ (ok : Bool) (errMsg : String) (total : Option ℕ) (events : List StreamEv)
        (fs : Option (List ℕ)),
      (∀ tb, (downloadFile ok errMsg total events fs).1 ≠ .success tb) →
      (downloadFile ok errMsg total events fs).2.1 = fs) ∧
    (∀ (errMsg : String) (total : Option ℕ) (events : List StreamEv) (old : List ℕ),
      observesAbort events = true →
      (httpRun true errMsg total events (some old)).2 = none ∧
      some old ≠ (none : Option (List ℕ))) := by
  constructor
  · intro ok errMsg total events fs hns
    cases ok with
    | false => rfl
    | true =>
      cases e : (downloadLoop total ⟨0, 0, List.nil, List.nil⟩ events).1 with
      | success tb =>
        exfalso
        exact hns tb (by simp [downloadFile, e])
      | cancelled => simp [downloadFile, e, finishFile]
      | failure m => simp [downloadFile, e, finishFile]
  · intro errMsg total events old h
    have hc := downloadLoop_cancelled total events ⟨0, 0, List.nil, List.nil⟩ h
    constructor
    · simp [httpRun, downloadFile, hc, finishFile, runnerFileEffect]
    · simp

theorem c10_witness :
    (∀ tb, (downloadFile true "e" none [StreamEv.raise false "net"] (some [3])).1 ≠
      DlOutcome.success tb) ∧
    (downloadFile true "e" none [StreamEv.raise false "net"] (some [3])).2.1 =
      some [3] := by
  have hout : (downloadFile true "e" none [StreamEv.raise false "net"]
      (some [3])).1 = DlOutcome.failure "net" := by decide
  have hns : ∀ tb, (downloadFile true "e" none [StreamEv.raise false "net"]
      (some [3])).1 ≠ DlOutcome.success tb := by
    intro tb
    rw [hout]
    intro hcon
    exact DlOutcome.noConfusion hcon
  exact ⟨hns, c10_theorem.1 true "e" none [StreamEv.raise false "net"] (some [3]) hns⟩

/- ── Lifting the trace model to its finite core ───────────────────────── -/

theorem coreOf_applyStep (st : Step) (s : SysState) :
    coreOf (applyStep st s) = coreApply (absStep st) (coreOf s) := by
  cases st with
  | runnerStart =>
    simp only [applyStep, enabled, absStep, coreApply, coreEnabled, coreOf]
    split_ifs <;> rfl
  | progress d total =>
    simp only [applyStep, enabled, absStep, coreApply, coreEnabled, coreOf]
    split_ifs <;> rfl
  | runnerFinish r =>
    cases r <;>
      · simp only [applyStep, enabled, absStep, coreApply, coreEnabled, coreOf]
        split_ifs <;> rfl
  | cancel =>
    simp only [applyStep, enabled, absStep, coreApply, coreEnabled, coreOf,
      stepFn, coreStep]
    split_ifs <;> rfl
  | torrentStart ok =>
    cases ok <;>
      · simp only [applyStep, enabled, absStep, coreApply, coreEnabled, coreOf,
          stepFn, coreStep]
        split_ifs <;> first | rfl | contradiction
  | torrentMeta name len =>
    simp only [applyStep, enabled, absStep, coreApply, coreEnabled, coreOf]
    split_ifs <;> rfl
  | torrentTick d len name p sp =>
    simp only [applyStep, enabled, absStep, coreApply, coreEnabled, coreOf,
      stepFn, coreStep]
    split_ifs <;> rfl
  | torrentDone len name =>
    simp only [applyStep, enabled, absStep, coreApply, coreEnabled, coreOf]
    split_ifs <;> rfl
  | torrentError m =>
    simp only [applyStep, enabled, absStep, coreApply, coreEnabled, coreOf]
    split_ifs <;> rfl

theorem coreOf_runSteps (l : List Step) :
    ∀ s : SysState, coreOf (runSteps s l) = coreRun (coreOf s) (l.map absStep) := by
  induction l with
  | nil => intro s; rfl
  | cons st rest ih =>
    intro s
    show coreOf (runSteps (applyStep st s) rest) = _
    rw [ih (applyStep st s), coreOf_applyStep]
    rfl

theorem coreRun_inv (P : Core → Bool)
    (hstep : ∀ a c, P c = true → P (coreApply a c) = true) :
    ∀ (as' : List AbsStep) (c : Core), P c = true → P (coreRun c as') = true := by
  intro as'
  induction as' with
  | nil => intro c h; exact h
  | cons a rest ih =>
    intro c h
    exact ih (coreApply a c) (hstep a c h)

set_option maxRecDepth 8192 in
theorem coreTorrentInv_preserved :
    ∀ (a : AbsStep) (c : Core),
      CoreTorrentInv c = true → CoreTorrentInv (coreApply a c) = true := by decide

set_option maxRecDepth 8192 in
theorem coreHttpInv_preserved :
    ∀ (a : AbsStep) (c : Core),
      CoreHttpInv c = true → CoreHttpInv (coreApply a c) = true := by decide

set_option maxRecDepth 8192 in
theorem coreTorrent_legal :
    ∀ (a : AbsStep) (c : Core), CoreTorrentInv c = true →
      statusOk c.status (coreApply a c).status := by decide

set_option maxRecDepth 8192 in
theorem coreHttp_legal :
    ∀ (a : AbsStep) (c : Core), CoreHttpInv c = true →
      statusOk c.status (coreApply a c).status ∨
        (c.status = .cancelled ∧
          (a = .runnerStart ∨ a = .runnerFinishCancelled ∨
            a = .runnerFinishSuccess ∨ a = .runnerFinishFailure)) := by decide

theorem httpInv_reach (l : List Step) :
    CoreHttpInv (coreOf (runSteps initHttpJob l)) = true := by
  rw [coreOf_runSteps]
  exact coreRun_inv CoreHttpInv coreHttpInv_preserved (l.map absStep)
    (coreOf initHttpJob) (by decide)

theorem torrentInv_reach (l : List Step) :
    CoreTorrentInv (coreOf (runSteps initTorrentJob l)) = true := by
  rw [coreOf_runSteps]
  exact coreRun_inv CoreTorrentInv coreTorrentInv_preserved (l.map absStep)
    (coreOf initTorrentJob) (by decide)

set_option maxRecDepth 8192 in
theorem coreHttpInv_facts :
    ∀ c : Core, CoreHttpInv c = true →
      c.kind = .http ∧
      (c.abortController = true ↔ c.pc ≠ .finished) ∧
      ((c.status = .queued ∨ c.status = .downloading) → c.abortController = true) ∧
      (c.pc = .finished → c.status.isTerminal = true) := by decide

set_option maxRecDepth 8192 in
theorem coreTorrentInv_facts :
    ∀ c : Core, CoreTorrentInv c = true →
      c.abortController = false ∧ c.kind = .torrent := by decide

/-- Which concrete steps stand behind the erased runner steps. -/
theorem absStep_runner (st : Step) :
    (absStep st = .runnerStart → st = .runnerStart) ∧
    ((absStep st = .runnerFinishCancelled ∨ absStep st = .runnerFinishSuccess ∨
        absStep st = .runnerFinishFailure) → ∃ r, st = .runnerFinish r) := by
  cases st with
  | runnerFinish r => cases r <;> simp [absStep]
  | torrentStart ok => cases ok <;> simp [absStep]
  | runnerStart => simp [absStep]
  | progress d total => simp [absStep]
  | cancel => simp [absStep]
  | torrentMeta name len => simp [absStep]
  | torrentTick d len name np sp => simp [absStep]
  | torrentDone len name => simp [absStep]
  | torrentError m => simp [absStep]

/-- A state whose HTTP runner has finalized never changes again: the
runner steps are spent, the torrent steps never applied to this job, and
the cancel route refuses a terminal job. -/
theorem applyStep_finished (st : Step) (s : SysState)
    (hinv : CoreHttpInv (coreOf s) = true) (hpc : s.pc = .finished) :
    applyStep st s = s := by
  have hkind : s.job.kind = .http := (coreHttpInv_facts (coreOf s) hinv).1
  have hterm : s.job.status.isTerminal = true :=
    (coreHttpInv_facts (coreOf s) hinv).2.2.2 hpc
  have hnq : ¬ (s.job.status = .queued ∨ s.job.status = .downloading) := by
    cases hs : s.job.status <;> simp_all [Status.isTerminal]
  cases st with
  | runnerStart => simp [applyStep, enabled, hpc]
  | progress d total => simp [applyStep, enabled, hpc]
  | runnerFinish r => simp [applyStep, enabled, hpc]
  | cancel => simp [applyStep, enabled, stepFn, hnq]
  | torrentStart ok => simp [applyStep, enabled, hkind]
  | torrentMeta name len => simp [applyStep, enabled, hkind]
  | torrentTick d len name np sp => simp [applyStep, enabled, hkind]
  | torrentDone len name => simp [applyStep, enabled, hkind]
  | torrentError m => simp [applyStep, enabled, hkind]

theorem runSteps_finished (l' : List Step) (s : SysState)
    (hinv : CoreHttpInv (coreOf s) = true) (hpc : s.pc = .finished) :
    runSteps s l' = s := by
  induction l' with
  | nil => rfl
  | cons st rest ih =>
    show runSteps (applyStep st s) rest = s
    rw [applyStep_finished st s hinv hpc]
    exact ih

/-- C1 counterexample: a cancellation that lands while the HTTP runner is
awaiting its engine is overwritten.  After the runner starts and a cancel
arrives, the job is cancelled (terminal); the runner's finalization step
is still enabled — the source re-checks nothing at lines 404-425 — and a
success result then moves the status from cancelled to done. -/
theorem c1_counterexample :
    (runSteps initHttpJob [Step.runnerStart, Step.cancel]).job.status =
      Status.cancelled ∧
    enabled (Step.runnerFinish (DlOutcome.success 5))
      (runSteps initHttpJob [Step.runnerStart, Step.cancel]) = true ∧
    (runSteps initHttpJob
        [Step.runnerStart, Step.cancel,
          Step.runnerFinish (DlOutcome.success 5)]).job.status = Status.done := by
  refine ⟨by decide, by decide, by decide⟩

/-- C1 as amended: for torrent jobs every operation either preserves the
status or follows the legal transition graph, as claimed.  For HTTP jobs
the same holds for every operation except the runner's own start and
finalization steps, which do not re-check the status and can overwrite a
cancellation that landed during the runner's execution; once the runner
has finalized, the state never changes again, and the cancel handler
never moves a terminal status. -/
theorem c1_theorem :
    (∀ (l : List Step) (st : Step),
      statusOk (runSteps initTorrentJob l).job.status
        (applyStep st (runSteps initTorrentJob l)).job.status) ∧
    (∀ (l : List Step) (st : Step),
      statusOk (runSteps initHttpJob l).job.status
        (applyStep st (runSteps initHttpJob l)).job.status ∨
      ((runSteps initHttpJob l).job.status = .cancelled ∧
        (st = .runnerStart ∨ ∃ r, st = .runnerFinish r))) ∧
    (∀ l l' : List Step, (runSteps initHttpJob l).pc = .finished →
      runSteps (runSteps initHttpJob l) l' = runSteps initHttpJob l) ∧
    (∀ s : SysState, s.job.status.isTerminal = true →
      applyStep .cancel s = s) := by
  refine ⟨fun l st => ?_, fun l st => ?_, fun l l' hpc => ?_, fun s hterm => ?_⟩
  · have h := coreTorrent_legal (absStep st) (coreOf (runSteps initTorrentJob l))
      (torrentInv_reach l)
    rw [← coreOf_applyStep] at h
    exact h
  · have h := coreHttp_legal (absStep st) (coreOf (runSteps initHttpJob l))
      (httpInv_reach l)
    rw [← coreOf_applyStep] at h
    rcases h with h | ⟨hc, habs⟩
    · exact Or.inl h
    · refine Or.inr ⟨hc, ?_⟩
      rcases habs with h1 | h1 | h1 | h1
      · exact Or.inl ((absStep_runner st).1 h1)
      · exact Or.inr ((absStep_runner st).2 (Or.inl h1))
      · exact Or.inr ((absStep_runner st).2 (Or.inr (Or.inl h1)))
      · exact Or.inr ((absStep_runner st).2 (Or.inr (Or.inr h1)))
  · exact runSteps_finished l' _ (httpInv_reach l) hpc
  · have hnq : ¬ (s.job.status = .queued ∨ s.job.status = .downloading) := by
      cases hs : s.job.status <;> simp_all [Status.isTerminal]
    simp [applyStep, enabled, stepFn, hnq]

theorem c1_witness :
    (runSteps initHttpJob
      [Step.runnerStart, Step.runnerFinish (DlOutcome.success 3)]).pc =
      HttpPc.finished ∧
    runSteps (runSteps initHttpJob
        [Step.runnerStart, Step.runnerFinish (DlOutcome.success 3)])
      [Step.cancel] =
      runSteps initHttpJob
        [Step.runnerStart, Step.runnerFinish (DlOutcome.success 3)] :=
  ⟨by decide,
    c1_theorem.2.2.1 [Step.runnerStart, Step.runnerFinish (DlOutcome.success 3)]
      [Step.cancel] (by decide)⟩

/-- C2 counterexample: the HTTP per-chunk progress callback checks only
that the job still exists (lines 395-402), not its status.  After a
cancellation the job is terminal, yet a late progress write still mutates
downloadedBytes, totalBytes and updatedAt. -/
theorem c2_counterexample :
    (runSteps initHttpJob [Step.runnerStart, Step.cancel]).job.status =
      Status.cancelled ∧
    (runSteps initHttpJob [Step.runnerStart, Step.cancel]).job.downloadedBytes =
      some 0 ∧
    (runSteps initHttpJob [Step.runnerStart, Step.cancel]).job.totalBytes = none ∧
    (runSteps initHttpJob
        [Step.runnerStart, Step.cancel,
          Step.progress 7 (some 10)]).job.downloadedBytes = some 7 ∧
    (runSteps initHttpJob
        [Step.runnerStart, Step.cancel,
          Step.progress 7 (some 10)]).job.totalBytes = some 10 := by
  refine ⟨by decide, by decide, by decide, by decide, by decide⟩

/-- C2 as amended: the torrent 500 ms sampler re-checks the status and is
a silent no-op on any job that is not downloading — in particular on a
terminal one — exactly as claimed; the HTTP per-chunk callback checks only
existence, so its write lands regardless of the status, refreshing
downloadedBytes and updatedAt even on a terminal job. -/
theorem c2_theorem :
    (∀ (s : SysState) (d len : ℕ) (name : String) (np sp : ℕ),
      s.job.status ≠ .downloading →
      applyStep (.torrentTick d len name np sp) s = s) ∧
    (∀ (s : SysState) (d : ℕ) (tt : Option ℕ),
      s.job.kind = .http → s.pc = .running →
      (applyStep (.progress d tt) s).job.downloadedBytes = some d ∧
      (applyStep (.progress d tt) s).job.updatedAt = s.clock + 1) := by
  constructor
  · intro s d len name np sp h
    by_cases he : enabled (.torrentTick d len name np sp) s = true
    · simp [applyStep, he, stepFn, h]
    · simp [applyStep, he]
  · intro s d tt hk hpc
    have he : enabled (.progress d tt) s = true := by simp [enabled, hk, hpc]
    constructor <;> simp [applyStep, he, stepFn]

theorem c2_witness :
    initTorrentJob.job.status ≠ Status.downloading ∧
    applyStep (Step.torrentTick 9 0 "" 0 0) initTorrentJob = initTorrentJob :=
  ⟨by decide, c2_theorem.1 initTorrentJob 9 0 "" 0 0 (by decide)⟩

/-- C7: the cancel route returns NotFound for an absent id; on a job whose
status is terminal it returns Conflict naming that status and leaves the
job record exactly as it was; on a queued or downloading job it reports
Ok, sets the status to cancelled, aborts the signal when an abort
controller is attached, and tears down the torrent handle when one is
attached. -/
theorem c7_theorem :
    (∀ s : SysState, s.job.status.isTerminal = true →
      deleteHandler (some s) = (.conflict s.job.status, some s)) ∧
    deleteHandler none = (.notFound, none) ∧
    (∀ s : SysState, (s.job.status = .queued ∨ s.job.status = .downloading) →
      (deleteHandler (some s)).1 = .ok ∧
      ∃ s', (deleteHandler (some s)).2 = some s' ∧
        s'.job.status = .cancelled ∧
        s'.job.message = some "Download cancelled" ∧
        (s.job.abortController = true → s'.job.signalAborted = true) ∧
        (s.job.kind = .torrent → s.job.torrentRef = true →
          s'.job.torrentRef = false)) := by
  refine ⟨?_, rfl, ?_⟩
  · intro s h
    have hnq : ¬ (s.job.status = .queued ∨ s.job.status = .downloading) := by
      cases hs : s.job.status <;> simp_all [Status.isTerminal]
    simp [deleteHandler, hnq]
  · intro s h
    refine ⟨by simp [deleteHandler, h], stepFn .cancel s,
      by simp [deleteHandler, h], ?_, ?_, ?_, ?_⟩
    · simp [stepFn, h]
    · simp [stepFn, h]
    · intro hac; simp [stepFn, h, hac]
    · intro hk hr; simp [stepFn, h, hk, hr]

theorem c7_witness :
    ((runSteps initHttpJob
      [Step.runnerStart, Step.runnerFinish (DlOutcome.failure "net")]).job.status.isTerminal
        = true) ∧
    deleteHandler (some (runSteps initHttpJob
        [Step.runnerStart, Step.runnerFinish (DlOutcome.failure "net")])) =
      (CancelOutcome.conflict
        (runSteps initHttpJob
          [Step.runnerStart, Step.runnerFinish (DlOutcome.failure "net")]).job.status,
        some (runSteps initHttpJob
          [Step.runnerStart, Step.runnerFinish (DlOutcome.failure "net")])) :=
  ⟨by decide, c7_theorem.1 _ (by decide)⟩

/-- C8 counterexample: a freshly created torrent job is queued yet carries
no abort controller (lines 571-581 attach none), and a cancelled HTTP job
still carries its abort controller until the runner finalizes — the
cancel handler aborts the signal but never clears the field (lines
702-705).  Both falsify the claimed equivalence. -/
theorem c8_counterexample :
    initTorrentJob.job.status = Status.queued ∧
    initTorrentJob.job.abortController = false ∧
    (runSteps initHttpJob [Step.runnerStart, Step.cancel]).job.status =
      Status.cancelled ∧
    (runSteps initHttpJob [Step.runnerStart, Step.cancel]).job.abortController =
      true := by
  refine ⟨by decide, by decide, by decide, by decide⟩

/-- C8 as amended: for HTTP jobs the abort controller is present from
creation exactly until the runner's finalization clears it — hence it is
present whenever the job is queued or downloading, but it survives a
cancellation until the runner unwinds; torrent jobs never carry an abort
controller at all, in any reachable state (their teardown handle is the
torrent reference instead). -/
theorem c8_theorem :
    (∀ l : List Step,
      ((runSteps initHttpJob l).job.abortController = true ↔
        (runSteps initHttpJob l).pc ≠ .finished)) ∧
    (∀ l : List Step,
      ((runSteps initHttpJob l).job.status = .queued ∨
        (runSteps initHttpJob l).job.status = .downloading) →
      (runSteps initHttpJob l).job.abortController = true) ∧
    (∀ l : List Step, (runSteps initTorrentJob l).job.abortController = false) := by
  refine ⟨fun l => ?_, fun l => ?_, fun l => ?_⟩
  · exact (coreHttpInv_facts _ (httpInv_reach l)).2.1
  · exact (coreHttpInv_facts _ (httpInv_reach l)).2.2.1
  · exact (coreTorrentInv_facts _ (torrentInv_reach l)).1

theorem c8_witness :
    ((runSteps initHttpJob List.nil).job.status = Status.queued ∨
      (runSteps initHttpJob List.nil).job.status = Status.downloading) ∧
    (runSteps initHttpJob List.nil).job.abortController = true :=
  ⟨Or.inl (by decide), c8_theorem.2.1 List.nil (Or.inl (by decide))⟩

end LocalLink
